import Mathlib

/-!
Verification of the COLD benchmark evaluation pipeline (`tree_go/main.go`)
and the results aggregator (`results/main.go`).

The Go source is shallowly embedded: pure helpers (`cleanAnswer`,
`buildPrompt`, the label-to-answer derivation in `processSample`) become
Lean functions over `String`/`List Char`; the per-sample scoring becomes a
pure function of the sample and the (externally supplied) inference
outcome; the shared counters become folds over the list of scored results;
`float64` arithmetic on counters is embedded over `ℚ`, with the non-finite
results of a division by zero embedded as `Option.none`; the post-shutdown
interleaving of the main goroutine and the collector goroutine becomes a
small-step event semantics.
-/

/- ### Answer extraction: `answerRegex` and `cleanAnswer` (main.go lines 95, 168-175) -/

/-- ASCII word characters of Go's `regexp` word boundary `\b`: `[0-9A-Za-z_]`. -/
def wordChar (c : Char) : Bool :=
  (decide ('A' ≤ c) && decide (c ≤ 'Z')) ||
  (decide ('a' ≤ c) && decide (c ≤ 'z')) ||
  (decide ('0' ≤ c) && decide (c ≤ '9')) ||
  c == '_'

/-- The two letters accepted by `answerRegex = \b(A|B)\b`. -/
def isAB (c : Char) : Bool := c == 'A' || c == 'B'

/-- The white-space characters of Go's `unicode.IsSpace` (`strings.TrimSpace`). -/
def goSpaceChars : List Char :=
  [Char.ofNat 9, Char.ofNat 10, Char.ofNat 11, Char.ofNat 12, Char.ofNat 13, ' ',
   Char.ofNat 0x85, Char.ofNat 0xA0, Char.ofNat 0x1680,
   Char.ofNat 0x2000, Char.ofNat 0x2001, Char.ofNat 0x2002, Char.ofNat 0x2003,
   Char.ofNat 0x2004, Char.ofNat 0x2005, Char.ofNat 0x2006, Char.ofNat 0x2007,
   Char.ofNat 0x2008, Char.ofNat 0x2009, Char.ofNat 0x200A,
   Char.ofNat 0x2028, Char.ofNat 0x2029, Char.ofNat 0x202F, Char.ofNat 0x205F,
   Char.ofNat 0x3000]

/-- `unicode.IsSpace`, as used by `strings.TrimSpace` in `cleanAnswer`. -/
def goIsSpace (c : Char) : Bool := decide (c ∈ goSpaceChars)

/-- `strings.TrimSpace`: drop leading and trailing white space. -/
def goTrimSpace (l : List Char) : List Char :=
  ((l.dropWhile goIsSpace).reverse.dropWhile goIsSpace).reverse

/-- Is the left context (`none` = start of text, `some p` = previous char) a
word boundary for `\b`? -/
def prevOk : Option Char → Bool
  | none => true
  | some p => !wordChar p

/-- Is the right context (the remaining characters) a word boundary for `\b`? -/
def nextOk : List Char → Bool
  | [] => true
  | d :: _ => !wordChar d

/-- The leftmost match of `answerRegex = \b(A|B)\b`: a left-to-right scan that
returns the first `A` or `B` with non-word (or absent) neighbours on both
sides, exactly Go's `FindStringSubmatch` on this pattern. `prev` is the
character preceding the scanned suffix. -/
def findStandalone : Option Char → List Char → Option Char
  | _, [] => none
  | prev, c :: rest =>
    if isAB c && prevOk prev && nextOk rest then some c
    else findStandalone (some c) rest

/-- The constant `InvalidAns` (main.go line 37). -/
def invalidAns : String := "[invalid]"

/-- `cleanAnswer` (main.go lines 168-175): trim the completion, return the
first standalone `A`/`B`, else the invalid sentinel. -/
def cleanAnswer (s : String) : String :=
  match findStandalone none (goTrimSpace s.toList) with
  | some c => String.singleton c
  | none => invalidAns

/- ### The data model and per-sample scoring (main.go lines 41-61, 233-272) -/

/-- `Sample` (main.go lines 41-47): one dataset row. -/
structure Sample where
  premise : String
  choice1 : String
  choice2 : String
  question : String
  label : String
deriving DecidableEq

/-- `Response` (main.go lines 50-61): the scored result of one sample. -/
structure Response where
  premise : String
  choice1 : String
  choice2 : String
  causalQuestion : String
  correctAnswer : String
  modelAnswer : String
  modelCompletion : String
  isCorrect : Bool
  isInvalid : Bool
  processingTime : ℚ
deriving DecidableEq

/-- The error handling of `processSample` (main.go lines 236-240): an API
error is never retried and is replaced by the invalid sentinel. The
argument is the single outcome of the one `askQuestion` call. -/
def completionOf (api : Except Unit String) : String :=
  match api with
  | .ok s => s
  | .error _ => invalidAns

/-- The ground-truth derivation of `processSample` (main.go lines 243-246):
`correctAnswer := "A"; if sample.Label == "1" { correctAnswer = "B" }`. -/
def correctAnswerFor (label : String) : String :=
  if label = "1" then "B" else "A"

/-- `processSample` (main.go lines 233-272) as a pure function of the sample,
the outcome of its one inference call, and the elapsed time `dt`. -/
def processSample (sample : Sample) (api : Except Unit String) (dt : ℚ) : Response :=
  let modelCompletion := completionOf api
  let modelAnswer := cleanAnswer modelCompletion
  let correctAnswer := correctAnswerFor sample.label
  { premise := sample.premise
    choice1 := sample.choice1
    choice2 := sample.choice2
    causalQuestion := sample.question
    correctAnswer := correctAnswer
    modelAnswer := modelAnswer
    modelCompletion := modelCompletion
    isCorrect := decide (modelAnswer = correctAnswer)
    isInvalid := decide (modelAnswer = invalidAns)
    processingTime := dt }

/- ### The RunStats counters as folds over the scored results
(main.go lines 74-79 and 251-257) -/

/-- `stats.total`: one `atomic.AddInt32(&stats.total, 1)` per processed sample. -/
def totalCount (rs : List Response) : Nat := rs.length

/-- `stats.correct`: incremented exactly when `isCorrect` (main.go line 251). -/
def correctCount (rs : List Response) : Nat := rs.countP (fun r => r.isCorrect)

/-- `stats.invalid`: incremented exactly when `isInvalid` (main.go line 254). -/
def invalidCount (rs : List Response) : Nat := rs.countP (fun r => r.isInvalid)

/-- The remaining bucket: results that are neither correct nor invalid. -/
def incorrectValidCount (rs : List Response) : Nat :=
  rs.countP (fun r => !r.isCorrect && !r.isInvalid)

/- ### Lemmas: the scan of `answerRegex` is insensitive to `TrimSpace`
and finds exactly the first standalone token -/

/-- Every Go white-space character is a non-word character and is not `A`/`B`. -/
lemma goSpaceChars_ok : goSpaceChars.all (fun c => !wordChar c && !isAB c) = true := by
  decide

/-- A white-space character is neither a word character nor `A`/`B`. -/
lemma goIsSpace_not_word (c : Char) (h : goIsSpace c = true) :
    wordChar c = false ∧ isAB c = false := by
  have hm : c ∈ goSpaceChars := of_decide_eq_true h
  have hall := List.all_eq_true.mp goSpaceChars_ok c hm
  simp only [Bool.and_eq_true, Bool.not_eq_true'] at hall
  exact hall

/-- The scan depends on its left context only through `prevOk`. -/
lemma findStandalone_congr (l : List Char) : ∀ p q : Option Char,
    prevOk p = prevOk q → findStandalone p l = findStandalone q l := by
  induction l with
  | nil => intro p q _; rfl
  | cons c rest ih =>
    intro p q h
    simp only [findStandalone, h]

/-- Dropping leading white space does not change the leftmost match. -/
lemma findStandalone_dropLeading (l : List Char) :
    findStandalone none (l.dropWhile goIsSpace) = findStandalone none l := by
  induction l with
  | nil => rfl
  | cons c rest ih =>
    by_cases hsp : goIsSpace c = true
    · obtain ⟨hw, hab⟩ := goIsSpace_not_word c hsp
      rw [List.dropWhile_cons_of_pos hsp, ih]
      show findStandalone none rest = findStandalone none (c :: rest)
      rw [show findStandalone none (c :: rest)
            = findStandalone (some c) rest by simp [findStandalone, hab]]
      exact findStandalone_congr rest none (some c) (by simp [prevOk, hw])
    · rw [List.dropWhile_cons_of_neg hsp]

/-- Dropping one trailing white-space character does not change the leftmost
match. -/
lemma findStandalone_dropTrailingOne (c : Char) (hc : goIsSpace c = true) :
    ∀ (l : List Char) (p : Option Char),
      findStandalone p (l ++ [c]) = findStandalone p l := by
  intro l
  induction l with
  | nil =>
    intro p
    simp [findStandalone, (goIsSpace_not_word c hc).2]
  | cons d rest ih =>
    intro p
    have hnext : nextOk (rest ++ [c]) = nextOk rest := by
      cases rest with
      | nil => simp [nextOk, (goIsSpace_not_word c hc).1]
      | cons e t => rfl
    show findStandalone p (d :: (rest ++ [c])) = findStandalone p (d :: rest)
    simp only [findStandalone, hnext]
    by_cases h : (isAB d && prevOk p && nextOk rest) = true
    · rw [if_pos h, if_pos h]
    · rw [if_neg h, if_neg h, ih]

/-- Dropping all trailing white space does not change the leftmost match. -/
lemma findStandalone_trimRight (l : List Char) (p : Option Char) :
    findStandalone p ((l.reverse.dropWhile goIsSpace).reverse) = findStandalone p l := by
  induction l using List.reverseRecOn with
  | nil => rfl
  | append_singleton m a ih =>
    by_cases ha : goIsSpace a = true
    · rw [List.reverse_append, List.reverse_singleton, List.singleton_append,
        List.dropWhile_cons_of_pos ha, ih,
        findStandalone_dropTrailingOne a ha m p]
    · rw [List.reverse_append, List.reverse_singleton, List.singleton_append,
        List.dropWhile_cons_of_neg ha]
      simp

/-- `TrimSpace` never changes the result of the `answerRegex` scan. -/
lemma findStandalone_goTrimSpace (l : List Char) :
    findStandalone none (goTrimSpace l) = findStandalone none l := by
  unfold goTrimSpace
  rw [findStandalone_trimRight (l.dropWhile goIsSpace) none,
    findStandalone_dropLeading l]

/-- Spec-side notion: in the decomposition `u ++ c :: v` of the completion
text, `c` is a standalone `A`/`B` token — the neighbouring characters, when
present, are non-word characters. -/
def standaloneHere (u : List Char) (c : Char) (v : List Char) : Bool :=
  isAB c &&
  (match u.getLast? with
   | some q => !wordChar q
   | none => true) &&
  (match v.head? with
   | some d => !wordChar d
   | none => true)

/-- The left context of a position inside the scan: the last character of the
consumed text `u`, or the scan's entry context `p` when `u` is empty. -/
def ctxPrevOk (p : Option Char) (u : List Char) : Bool :=
  match u.getLast? with
  | some q => !wordChar q
  | none => prevOk p

lemma ctxPrevOk_cons (p : Option Char) (c : Char) (u : List Char) :
    ctxPrevOk p (c :: u) = ctxPrevOk (some c) u := by
  cases u with
  | nil => simp [ctxPrevOk, prevOk]
  | cons d t =>
    unfold ctxPrevOk
    rw [List.getLast?_cons_cons]
    rcases h : (d :: t).getLast? with _ | q
    · exact absurd h (by simp)
    · rfl

lemma standaloneHere_eq (u : List Char) (c : Char) (v : List Char) :
    standaloneHere u c v = (isAB c && ctxPrevOk none u && nextOk v) := by
  unfold standaloneHere ctxPrevOk
  cases hu : u.getLast? <;> cases v <;> simp [prevOk, nextOk]

/-- The scan returns `none` exactly when no position of the text is a
standalone token (relative to the entry context `p`). -/
lemma findStandalone_eq_none_iff : ∀ (l : List Char) (p : Option Char),
    findStandalone p l = none ↔
      ∀ u c v, l = u ++ c :: v → (isAB c && ctxPrevOk p u && nextOk v) = false := by
  intro l
  induction l with
  | nil =>
    intro p
    constructor
    · intro _ u c v h
      exact absurd h (by simp)
    · intro _
      rfl
  | cons a rest ih =>
    intro p
    by_cases hcond : (isAB a && prevOk p && nextOk rest) = true
    · constructor
      · intro h
        rw [show findStandalone p (a :: rest) = some a by
          simp [findStandalone, hcond]] at h
        exact absurd h (by simp)
      · intro hall
        have := hall [] a rest rfl
        rw [show ctxPrevOk p ([] : List Char) = prevOk p from rfl] at this
        rw [this] at hcond
        exact absurd hcond (by simp)
    · have hstep : findStandalone p (a :: rest) = findStandalone (some a) rest := by
        simp [findStandalone, hcond]
      rw [hstep, ih (some a)]
      constructor
      · intro hall u c v hdec
        cases u with
        | nil =>
          simp only [List.nil_append, List.cons.injEq] at hdec
          obtain ⟨rfl, rfl⟩ := hdec
          rw [show ctxPrevOk p ([] : List Char) = prevOk p from rfl]
          exact Bool.not_eq_true _ ▸ Bool.of_not_eq_true hcond
        | cons b u2 =>
          simp only [List.cons_append, List.cons.injEq] at hdec
          obtain ⟨rfl, hdec⟩ := hdec
          rw [ctxPrevOk_cons]
          exact hall u2 c v hdec
      · intro hall u c v hdec
        have := hall (a :: u) c v (by rw [hdec, List.cons_append])
        rwa [ctxPrevOk_cons] at this

/-- When the scan returns `some ch`, the text decomposes at the first
standalone position, whose token is `ch`. -/
lemma findStandalone_eq_some : ∀ (l : List Char) (p : Option Char) (ch : Char),
    findStandalone p l = some ch →
      ∃ u v, l = u ++ ch :: v ∧ (isAB ch && ctxPrevOk p u && nextOk v) = true ∧
        ∀ u2 c2 v2, l = u2 ++ c2 :: v2 → u2.length < u.length →
          (isAB c2 && ctxPrevOk p u2 && nextOk v2) = false := by
  intro l
  induction l with
  | nil =>
    intro p ch h
    exact absurd h (by simp [findStandalone])
  | cons a rest ih =>
    intro p ch h
    by_cases hcond : (isAB a && prevOk p && nextOk rest) = true
    · rw [show findStandalone p (a :: rest) = some a by
        simp [findStandalone, hcond]] at h
      obtain rfl : a = ch := by simpa using h
      refine ⟨[], rest, rfl, ?_, ?_⟩
      · rw [show ctxPrevOk p ([] : List Char) = prevOk p from rfl]
        exact hcond
      · intro u2 c2 v2 _ hlen
        exact absurd hlen (by simp)
    · rw [show findStandalone p (a :: rest) = findStandalone (some a) rest by
        simp [findStandalone, hcond]] at h
      obtain ⟨u, v, hdec, hok, hmin⟩ := ih (some a) ch h
      refine ⟨a :: u, v, by rw [hdec, List.cons_append], ?_, ?_⟩
      · rwa [ctxPrevOk_cons]
      · intro u2 c2 v2 hdec2 hlen
        cases u2 with
        | nil =>
          simp only [List.nil_append, List.cons.injEq] at hdec2
          obtain ⟨rfl, rfl⟩ := hdec2
          rw [show ctxPrevOk p ([] : List Char) = prevOk p from rfl]
          exact Bool.not_eq_true _ ▸ Bool.of_not_eq_true hcond
        | cons b u3 =>
          simp only [List.cons_append, List.cons.injEq] at hdec2
          obtain ⟨rfl, hdec2⟩ := hdec2
          rw [ctxPrevOk_cons]
          exact hmin u3 c2 v2 hdec2 (by simpa using hlen)

/-- A one-letter string is never the nine-character invalid sentinel. -/
lemma singleton_ne_invalid (c : Char) : String.singleton c ≠ invalidAns := by
  intro h
  have h2 := congrArg (fun s => s.data.length) h
  simp [String.singleton, invalidAns] at h2

/-- `String.singleton` is injective. -/
lemma singleton_inj {c d : Char} (h : String.singleton c = String.singleton d) :
    c = d := by
  have h2 := congrArg (fun s => s.data) h
  simpa [String.singleton] using h2

/-- `cleanAnswer` restated over the untrimmed character list. -/
lemma cleanAnswer_eq_match (s : String) :
    cleanAnswer s = match findStandalone none s.toList with
      | some c => String.singleton c
      | none => invalidAns := by
  unfold cleanAnswer
  rw [findStandalone_goTrimSpace]

/-- Claim C3: for every completion string, answer extraction returns the first
standalone `A` or `B` token found anywhere in the text (at the least
decomposition `u ++ c :: v` whose neighbours are non-word characters), and
returns the invalid sentinel `"[invalid]"` exactly for the strings containing
no such token. -/
theorem c3_first_standalone_token (s : String) :
    (cleanAnswer s = invalidAns ↔
      ∀ u c v, s.toList = u ++ c :: v → standaloneHere u c v = false) ∧
    (∀ ch, cleanAnswer s = String.singleton ch →
      ∃ u v, s.toList = u ++ ch :: v ∧ standaloneHere u ch v = true ∧
        ∀ u2 c2 v2, s.toList = u2 ++ c2 :: v2 → u2.length < u.length →
          standaloneHere u2 c2 v2 = false) := by
  have hca := cleanAnswer_eq_match s
  rcases heq : findStandalone none s.toList with _ | c
  · rw [heq] at hca
    constructor
    · rw [hca]
      simp only [true_iff]
      intro u c v hdec
      rw [standaloneHere_eq]
      exact (findStandalone_eq_none_iff s.toList none).mp heq u c v hdec
    · intro ch hch
      rw [hca] at hch
      exact absurd hch.symm (singleton_ne_invalid ch)
  · rw [heq] at hca
    obtain ⟨u, v, hdec, hok, hmin⟩ := findStandalone_eq_some s.toList none c heq
    constructor
    · rw [hca]
      constructor
      · intro h
        exact absurd h (singleton_ne_invalid c)
      · intro hall
        have := hall u c v hdec
        rw [standaloneHere_eq, hok] at this
        exact absurd this (by simp)
    · intro ch hch
      rw [hca] at hch
      obtain rfl : c = ch := singleton_inj hch
      refine ⟨u, v, hdec, ?_, ?_⟩
      · rw [standaloneHere_eq]
        exact hok
      · intro u2 c2 v2 hdec2 hlen
        rw [standaloneHere_eq]
        exact hmin u2 c2 v2 hdec2 hlen

/-- Witness for C3 at the completion `"The answer is A"`: extraction returns
`"A"`, found at the standalone position before the final character. -/
theorem c3_first_standalone_token_witness :
    ∃ u v, ("The answer is A").toList = u ++ 'A' :: v ∧
      standaloneHere u 'A' v = true ∧
      ∀ u2 c2 v2, ("The answer is A").toList = u2 ++ c2 :: v2 →
        u2.length < u.length → standaloneHere u2 c2 v2 = false :=
  (c3_first_standalone_token "The answer is A").2 'A' (by decide)

/- ### Claims C1, C4, C10: scoring flags, error path, label mapping -/

/-- The derived ground truth is one of the two choice letters, never the
invalid sentinel. -/
lemma correctAnswerFor_ne_invalid (label : String) :
    correctAnswerFor label ≠ invalidAns := by
  unfold correctAnswerFor
  by_cases h : label = "1" <;> simp [h, invalidAns]

/-- Two distinct candidate values cannot both be equal to the same answer. -/
lemma decide_eq_and_ne {x c i : String} (h : c ≠ i) :
    (decide (x = c) && decide (x = i)) = false := by
  by_cases h1 : x = c
  · subst h1
    simp [h]
  · simp [h1]

/-- The scoring flags of one processed sample are never both set. -/
lemma processSample_flags (sample : Sample) (api : Except Unit String) (dt : ℚ) :
    ((processSample sample api dt).isCorrect &&
      (processSample sample api dt).isInvalid) = false := by
  simp only [processSample]
  exact decide_eq_and_ne (correctAnswerFor_ne_invalid sample.label)

/-- Any list of responses whose flags are never both set splits exactly into
the three buckets. -/
lemma count_split (rs : List Response)
    (hok : ∀ r ∈ rs, (r.isCorrect && r.isInvalid) = false) :
    totalCount rs = correctCount rs + incorrectValidCount rs + invalidCount rs := by
  induction rs with
  | nil => rfl
  | cons r t ih =>
    have hr := hok r (by simp)
    have ht := ih (fun x hx => hok x (by simp [hx]))
    simp only [totalCount, correctCount, invalidCount, incorrectValidCount,
      List.countP_cons, List.length_cons] at *
    cases hc : r.isCorrect <;> cases hi : r.isInvalid <;>
      simp [hc, hi] at hr ⊢ <;> omega

/-- Claim C1: a scored result is never both correct and invalid, and hence,
at every observation point (after any list of completed samples), the total
equals correct plus incorrect-but-valid plus invalid. -/
theorem c1_total_splits_into_buckets :
    (∀ (sample : Sample) (api : Except Unit String) (dt : ℚ),
      ((processSample sample api dt).isCorrect &&
        (processSample sample api dt).isInvalid) = false) ∧
    (∀ inputs : List (Sample × Except Unit String × ℚ),
      totalCount (inputs.map fun t => processSample t.1 t.2.1 t.2.2) =
        correctCount (inputs.map fun t => processSample t.1 t.2.1 t.2.2) +
        incorrectValidCount (inputs.map fun t => processSample t.1 t.2.1 t.2.2) +
        invalidCount (inputs.map fun t => processSample t.1 t.2.1 t.2.2)) := by
  refine ⟨processSample_flags, ?_⟩
  intro inputs
  refine count_split _ ?_
  intro r hr
  obtain ⟨t, _, rfl⟩ := List.mem_map.mp hr
  exact processSample_flags t.1 t.2.1 t.2.2

/-- The sentinel itself contains no standalone `A`/`B`, so extraction maps it
to itself. -/
lemma cleanAnswer_invalidAns : cleanAnswer invalidAns = invalidAns := by
  decide

/-- Claim C4: when the single inference call of a sample errors, the call is
not retried — the completion is replaced by the invalid sentinel — and the
result is flagged invalid and not correct; with an always-failing
collaborator, `invalid = total` and `correct = 0`. -/
theorem c4_error_becomes_invalid (oracle : Sample → Except Unit String)
    (samples : List Sample)
    (h : ∀ s, oracle s = Except.error ()) :
    (∀ r ∈ samples.map (fun s => processSample s (oracle s) 0),
      r.modelCompletion = invalidAns ∧ r.isInvalid = true ∧ r.isCorrect = false) ∧
    invalidCount (samples.map fun s => processSample s (oracle s) 0) =
      totalCount (samples.map fun s => processSample s (oracle s) 0) ∧
    correctCount (samples.map fun s => processSample s (oracle s) 0) = 0 := by
  have hone : ∀ s : Sample, (processSample s (oracle s) 0).modelCompletion = invalidAns ∧
      (processSample s (oracle s) 0).isInvalid = true ∧
      (processSample s (oracle s) 0).isCorrect = false := by
    intro s
    have hc : completionOf (oracle s) = invalidAns := by
      rw [h s]; rfl
    refine ⟨by simp [processSample, hc], ?_, ?_⟩
    · simp [processSample, hc, cleanAnswer_invalidAns]
    · simp only [processSample, hc, cleanAnswer_invalidAns, decide_eq_false_iff_not]
      exact fun heq => correctAnswerFor_ne_invalid s.label heq.symm
  refine ⟨?_, ?_, ?_⟩
  · intro r hr
    obtain ⟨s, _, rfl⟩ := List.mem_map.mp hr
    exact hone s
  · unfold invalidCount totalCount
    refine List.countP_eq_length.mpr ?_
    intro r hr
    obtain ⟨s, _, rfl⟩ := List.mem_map.mp hr
    exact (hone s).2.1
  · unfold correctCount
    refine List.countP_eq_zero.mpr ?_
    intro r hr
    obtain ⟨s, _, rfl⟩ := List.mem_map.mp hr
    simp [(hone s).2.2]

/-- A fixed sample used to instantiate hypotheses at concrete inputs. -/
def sampleW : Sample :=
  { premise := "dig a hole"
    choice1 := "water the plant"
    choice2 := "cut down a tree"
    question := "effect"
    label := "0" }

/-- Witness for C4: one sample processed with an always-failing collaborator. -/
theorem c4_error_becomes_invalid_witness :
    (∀ r ∈ [sampleW].map
        (fun s => processSample s ((fun _ : Sample => Except.error ()) s) 0),
      r.modelCompletion = invalidAns ∧ r.isInvalid = true ∧ r.isCorrect = false) ∧
    invalidCount ([sampleW].map
        (fun s => processSample s ((fun _ : Sample => Except.error ()) s) 0)) =
      totalCount ([sampleW].map
        (fun s => processSample s ((fun _ : Sample => Except.error ()) s) 0)) ∧
    correctCount ([sampleW].map
        (fun s => processSample s ((fun _ : Sample => Except.error ()) s) 0)) = 0 :=
  c4_error_becomes_invalid (fun _ => Except.error ()) [sampleW] (fun _ => rfl)

/-- Claim C10: the derived correct answer is `"B"` exactly when the label
string is `"1"`, and is `"A"` for every other label string, however
malformed — a bad label is scored against choice `A`, not rejected. -/
theorem c10_label_to_correct_answer (label : String) :
    (correctAnswerFor label = "B" ↔ label = "1") ∧
    (label ≠ "1" → correctAnswerFor label = "A") := by
  unfold correctAnswerFor
  by_cases h : label = "1" <;> simp [h]

/-- Witness for C10: malformed label `"2"` is scored against `"A"`, and label
`"1"` against `"B"`. -/
theorem c10_label_to_correct_answer_witness :
    (correctAnswerFor "2" = "A") ∧ (correctAnswerFor "1" = "B") :=
  ⟨(c10_label_to_correct_answer "2").2 (by decide),
   (c10_label_to_correct_answer "1").1.mpr rfl⟩

/- ### Claim C5: the timer-tick accuracy (main.go lines 363-382) -/

/-- The collector's timer tick computes
`accuracy := float64(correct) / float64(total) * 100` (main.go line 367)
with no guard on `total`: for `total = 0` the IEEE quotient is non-finite
(NaN), embedded here as `none`; otherwise the exact rational value. -/
def tickAccuracy (correct total : Nat) : Option ℚ :=
  if total = 0 then none
  else some ((correct : ℚ) / (total : ℚ) * 100)

/-- Claim C5 (divergence): on a tick with `total = 0` the source produces the
unguarded non-finite value, not the `0` the claim requires; for `total > 0`
the snapshot accuracy is `correct / total × 100` as claimed. -/
theorem c5_tick_accuracy_unguarded :
    tickAccuracy 0 0 = none ∧
    (∀ correct total : Nat,
      tickAccuracy correct (total + 1) =
        some ((correct : ℚ) / ((total : ℚ) + 1) * 100)) := by
  refine ⟨rfl, ?_⟩
  intro correct total
  unfold tickAccuracy
  rw [if_neg (Nat.succ_ne_zero total)]
  push_cast
  ring_nf

/- ### Claim C6: the results aggregator (results/main.go lines 33-97) -/

/-- `calculateAccuracy` (results/main.go lines 45-85): count total, correct
and invalid over the decoded results; report nothing when `total == 0`;
otherwise report overall accuracy and the accuracy excluding invalids, the
latter zero-initialised and only assigned when `validTotal > 0`. -/
def calculateAccuracy (rs : List Response) : Option (ℚ × ℚ) :=
  let total := totalCount rs
  let correct := correctCount rs
  let invalid := invalidCount rs
  if total = 0 then none
  else
    let accuracy : ℚ := (correct : ℚ) / (total : ℚ) * 100
    let validTotal : Int := (total : Int) - (invalid : Int)
    let validAccuracy : ℚ := if validTotal > 0
      then (correct : ℚ) / (validTotal : ℚ) * 100
      else 0
    some (accuracy, validAccuracy)

/-- Claim C6: whenever the aggregator reports, the accuracy excluding
invalids equals `correct / (total − invalid) × 100`, and equals `0` when
`total − invalid = 0`. -/
theorem c6_valid_accuracy (rs : List Response) (h : 0 < totalCount rs) :
    ∃ a v, calculateAccuracy rs = some (a, v) ∧
      v = if (totalCount rs : Int) - (invalidCount rs : Int) = 0 then 0
          else (correctCount rs : ℚ) /
            (((totalCount rs : Int) - (invalidCount rs : Int) : Int) : ℚ) * 100 := by
  have hle : invalidCount rs ≤ totalCount rs := List.countP_le_length _
  unfold calculateAccuracy
  rw [if_neg (Nat.pos_iff_ne_zero.mp h)]
  refine ⟨_, _, rfl, ?_⟩
  by_cases hz : (totalCount rs : Int) - (invalidCount rs : Int) = 0
  · rw [if_pos hz, if_neg (by omega)]
  · have hpos : (0 : Int) < (totalCount rs : Int) - (invalidCount rs : Int) := by
      omega
    rw [if_neg hz, if_pos hpos]

/-- Witness for C6: a single invalid result — `total − invalid = 0`, so the
reported accuracy excluding invalids is `0`. -/
theorem c6_valid_accuracy_witness :
    ∃ a v, calculateAccuracy [processSample sampleW (Except.error ()) 0] = some (a, v) ∧
      v = if (totalCount [processSample sampleW (Except.error ()) 0] : Int) -
              (invalidCount [processSample sampleW (Except.error ()) 0] : Int) = 0 then 0
          else (correctCount [processSample sampleW (Except.error ()) 0] : ℚ) /
            (((totalCount [processSample sampleW (Except.error ()) 0] : Int) -
              (invalidCount [processSample sampleW (Except.error ()) 0] : Int) : Int) : ℚ) * 100 :=
  c6_valid_accuracy [processSample sampleW (Except.error ()) 0] (by decide)

/- ### Claim C2: the Sample Source header handling (main.go lines 307-341) -/

/-- The loop `for i, col := range header { colMap[col] = i }` followed by the
lookup `colMap[name]`: a later occurrence overwrites an earlier one, and Go
returns the zero value `0` for a name that is absent. `i` is the index of
the current column, `acc` the map entry accumulated so far. -/
def goColMapGo : List String → String → Nat → Nat → Nat
  | [], _, _, acc => acc
  | col :: rest, name, i, acc =>
    goColMapGo rest name (i + 1) (if col = name then i else acc)

/-- `colMap[name]` for the given header row. -/
def goColMap (header : List String) (name : String) : Nat :=
  goColMapGo header name 0 0

/-- One iteration of the row loop (main.go lines 331-337): build a `Sample`
from the record by the mapped column positions. `none` models the record
being too short for an index (a Go panic, terminating the run), which cannot
happen for records with the header's field count. -/
def parseSample (header rec : List String) : Option Sample := do
  let p ← rec.get? (goColMap header "premise")
  let c1 ← rec.get? (goColMap header "choice1")
  let c2 ← rec.get? (goColMap header "choice2")
  let q ← rec.get? (goColMap header "question")
  let l ← rec.get? (goColMap header "label")
  pure { premise := p, choice1 := c1, choice2 := c2, question := q, label := l }

/-- The record sequence the Sample Source feeds to the workers: after the
header row is read (the only fatal point besides opening the file), every
row is mapped through `parseSample` until the first failure, which ends the
sequence early; the header contents are never validated. -/
def sampleSourceRecords (header : List String) : List (List String) → List Sample
  | [] => []
  | r :: rest =>
    match parseSample header r with
    | some s => s :: sampleSourceRecords header rest
    | none => []

/-- A header missing the required `premise` column. -/
def hdrMissingPremise : List String := ["id", "choice1", "choice2", "question", "label"]

/-- Counterexample to C2: with `premise` absent from the header, the source
does not abort — the lookup falls back to Go's zero value `0`, and a worker
receives a record whose premise silently comes from column 0. -/
theorem c2_counterexample :
    decide ("premise" ∈ hdrMissingPremise) = false ∧
    sampleSourceRecords hdrMissingPremise [["row0", "c1", "c2", "effect", "0"]] =
      [{ premise := "row0", choice1 := "c1", choice2 := "c2",
         question := "effect", label := "0" }] := by
  constructor
  · decide
  · rfl

/-- An absent column makes `goColMapGo` return its accumulator unchanged. -/
lemma goColMapGo_not_mem (name : String) :
    ∀ (header : List String) (i acc : Nat), name ∉ header →
      goColMapGo header name i acc = acc := by
  intro header
  induction header with
  | nil => intro i acc _; rfl
  | cons col rest ih =>
    intro i acc hmem
    unfold goColMapGo
    have hcol : ¬(col = name) := by
      intro hh
      exact hmem (by rw [← hh]; exact List.mem_cons_self col rest)
    rw [if_neg hcol, ih (i + 1) acc (fun hr => hmem (List.mem_cons_of_mem col hr))]

/-- Claim C2 (amended): a required column name absent from the header is not
detected — its lookup yields index 0, so the field is silently read from the
first column — and the source still emits every parseable record to the
workers instead of aborting. -/
theorem c2_amended (header : List String) (name : String) (row : List String)
    (v : String) (hn : name ∉ header) (hr : row.get? 0 = some v) :
    row.get? (goColMap header name) = some v ∧
    ∀ s, parseSample header row = some s →
      sampleSourceRecords header [row] = [s] := by
  constructor
  · unfold goColMap
    rw [goColMapGo_not_mem name header 0 0 hn]
    exact hr
  · intro s hs
    unfold sampleSourceRecords
    rw [hs]
    rfl

/-- Witness for C2 (amended), at the concrete header missing `premise`. -/
theorem c2_amended_witness :
    (["row0", "c1", "c2", "effect", "0"] : List String).get?
        (goColMap hdrMissingPremise "premise") = some "row0" ∧
    ∀ s, parseSample hdrMissingPremise ["row0", "c1", "c2", "effect", "0"] = some s →
      sampleSourceRecords hdrMissingPremise [["row0", "c1", "c2", "effect", "0"]] = [s] :=
  c2_amended hdrMissingPremise "premise" ["row0", "c1", "c2", "effect", "0"] "row0"
    (by decide) rfl

/- ### Claim C8: how `processSample` mutates the RunStats counters
(main.go lines 74-79, 251-258) -/

/-- The four fields of `Stats` (main.go lines 74-79). -/
inductive StatField where
  | total
  | correct
  | invalid
  | totalTime
deriving DecidableEq

/-- One counter mutation: either an `atomic.AddInt32` fetch-and-add, or a
plain (non-atomic) read-modify-write `+=` on a float. -/
inductive StatsUpdate where
  | atomicAddInt32 (f : StatField) (delta : Int)
  | plainFloatAdd (f : StatField) (delta : ℚ)
deriving DecidableEq

/-- Which field an update mutates. -/
def updField : StatsUpdate → StatField
  | .atomicAddInt32 f _ => f
  | .plainFloatAdd f _ => f

/-- Is the update an atomic fetch-and-add? -/
def isAtomicUpd : StatsUpdate → Bool
  | .atomicAddInt32 _ _ => true
  | .plainFloatAdd _ _ => false

/-- The exact sequence of counter mutations performed by one invocation of
`processSample` (main.go lines 251-258): conditionally
`atomic.AddInt32(&stats.correct, 1)` and `atomic.AddInt32(&stats.invalid, 1)`,
then `atomic.AddInt32(&stats.total, 1)`, then the plain
`stats.totalTime += time.Since(startTime).Seconds()`. -/
def processSampleStatsUpdates (isCorrect isInvalid : Bool) (dt : ℚ) :
    List StatsUpdate :=
  (if isCorrect then [StatsUpdate.atomicAddInt32 .correct 1] else []) ++
  (if isInvalid then [StatsUpdate.atomicAddInt32 .invalid 1] else []) ++
  [StatsUpdate.atomicAddInt32 .total 1, StatsUpdate.plainFloatAdd .totalTime dt]

/-- Counterexample to C8: every invocation performs a non-atomic
read-modify-write on the cumulative processing time. -/
theorem c8_counterexample :
    StatsUpdate.plainFloatAdd .totalTime 1 ∈ processSampleStatsUpdates false false 1 ∧
    isAtomicUpd (StatsUpdate.plainFloatAdd .totalTime 1) = false := by
  constructor
  · simp [processSampleStatsUpdates]
  · rfl

/-- Claim C8 (amended): the `total`, `correct` and `invalid` counters are
mutated exclusively via atomic fetch-and-add; the cumulative processing time
is mutated via a plain non-atomic read-modify-write by every worker. -/
theorem c8_amended (isCorrect isInvalid : Bool) (dt : ℚ) (u : StatsUpdate)
    (hu : u ∈ processSampleStatsUpdates isCorrect isInvalid dt) :
    (updField u ≠ StatField.totalTime → isAtomicUpd u = true) ∧
    (updField u = StatField.totalTime → isAtomicUpd u = false) := by
  have hmem : u = StatsUpdate.atomicAddInt32 .correct 1 ∨
      u = StatsUpdate.atomicAddInt32 .invalid 1 ∨
      u = StatsUpdate.atomicAddInt32 .total 1 ∨
      u = StatsUpdate.plainFloatAdd .totalTime dt := by
    unfold processSampleStatsUpdates at hu
    rcases List.mem_append.mp hu with h1 | h2
    · rcases List.mem_append.mp h1 with ha | hb
      · split at ha
        · exact Or.inl (List.mem_singleton.mp ha)
        · exact absurd ha (by simp)
      · split at hb
        · exact Or.inr (Or.inl (List.mem_singleton.mp hb))
        · exact absurd hb (by simp)
    · rcases List.mem_cons.mp h2 with h | h
      · exact Or.inr (Or.inr (Or.inl h))
      · exact Or.inr (Or.inr (Or.inr (List.mem_singleton.mp h)))
  rcases hmem with rfl | rfl | rfl | rfl <;> simp [updField, isAtomicUpd]

/-- Witness for C8 (amended): the `total` increment is atomic. -/
theorem c8_amended_witness :
    (updField (StatsUpdate.atomicAddInt32 .total 1) ≠ StatField.totalTime →
      isAtomicUpd (StatsUpdate.atomicAddInt32 .total 1) = true) ∧
    (updField (StatsUpdate.atomicAddInt32 .total 1) = StatField.totalTime →
      isAtomicUpd (StatsUpdate.atomicAddInt32 .total 1) = false) :=
  c8_amended false false 1 (StatsUpdate.atomicAddInt32 .total 1)
    (by simp [processSampleStatsUpdates])

/- ### Claim C7: ordering of the final snapshot and the collector's
shutdown (main.go lines 344-405) -/

/-- Events after `wg.Wait()` returns: the main goroutine's
`close(resultsChan)` (line 388) and final-log persistence (lines 391-405),
and the collector goroutine's remaining receives, final partial-batch flush
and return (lines 351-357). -/
inductive PEv where
  | closeChan
  | finalSnap
  | recvResult
  | flushPartial
  | collectorClosed
deriving DecidableEq

/-- Joint state of the two goroutines after `wg.Wait()`: the main goroutine's
program counter (0 = before `close`, 1 = before the final log, 2 = done),
the collector's program counter (0 = draining, 1 = flushed, 2 = returned),
whether `resultsChan` is closed, and how many buffered results remain. -/
structure ShutdownState where
  mainPC : Nat
  collPC : Nat
  chanClosed : Bool
  buf : Nat
deriving DecidableEq

/-- Initial shutdown state with `k` results still buffered in `resultsChan`. -/
def initShutdown (k : Nat) : ShutdownState :=
  { mainPC := 0, collPC := 0, chanClosed := false, buf := k }

/-- One interleaving step. The only cross-goroutine ordering is the channel:
the collector observes `!ok` — and hence flushes and returns — only after
`close(resultsChan)`; buffered results may still be received at any time.
Nothing orders the main goroutine's final log after the collector's flush:
`main` never waits for the collector goroutine. -/
def stepShutdown (s : ShutdownState) : PEv → Option ShutdownState
  | .closeChan =>
    if s.mainPC = 0 then some { s with mainPC := 1, chanClosed := true } else none
  | .finalSnap =>
    if s.mainPC = 1 then some { s with mainPC := 2 } else none
  | .recvResult =>
    if s.collPC = 0 && decide (0 < s.buf) then some { s with buf := s.buf - 1 }
    else none
  | .flushPartial =>
    if s.collPC = 0 && s.buf = 0 && s.chanClosed then some { s with collPC := 1 }
    else none
  | .collectorClosed =>
    if s.collPC = 1 then some { s with collPC := 2 } else none

/-- Run a sequence of events from a state; `none` if some step is not enabled. -/
def runShutdown : ShutdownState → List PEv → Option ShutdownState
  | s, [] => some s
  | s, e :: rest =>
    match stepShutdown s e with
    | some t => runShutdown t rest
    | none => none

/-- A complete shutdown execution with `k` initially buffered results: every
step enabled in sequence, ending with both goroutines finished. -/
def validShutdownTrace (k : Nat) (evs : List PEv) : Bool :=
  match runShutdown (initShutdown k) evs with
  | some s => decide (s.mainPC = 2 ∧ s.collPC = 2)
  | none => false

/-- Counterexample to C7: a complete valid shutdown execution in which the
final snapshot is persisted strictly before the collector flushes its
partial batch and reaches its closed state — the prefix containing
`finalSnap` contains neither `flushPartial` nor `collectorClosed`. -/
theorem c7_counterexample :
    validShutdownTrace 0
      [PEv.closeChan, PEv.finalSnap, PEv.flushPartial, PEv.collectorClosed] = true ∧
    [PEv.closeChan, PEv.finalSnap, PEv.flushPartial, PEv.collectorClosed] =
      [PEv.closeChan, PEv.finalSnap] ++ [PEv.flushPartial, PEv.collectorClosed] ∧
    PEv.finalSnap ∈ [PEv.closeChan, PEv.finalSnap] ∧
    PEv.collectorClosed ∉ [PEv.closeChan, PEv.finalSnap] ∧
    PEv.flushPartial ∉ [PEv.closeChan, PEv.finalSnap] := by
  refine ⟨rfl, rfl, by decide, by decide, by decide⟩

/-- With the main goroutine at its start, any enabled event is either the
close itself, or a collector event that keeps the main goroutine at its
start — in particular the final snapshot is not enabled. -/
lemma stepShutdown_keeps_mainPC0 (s t : ShutdownState) (e : PEv)
    (h0 : s.mainPC = 0) (h : stepShutdown s e = some t) :
    e = PEv.closeChan ∨ (e ≠ PEv.finalSnap ∧ t.mainPC = 0) := by
  cases e with
  | closeChan => exact Or.inl rfl
  | finalSnap =>
    exfalso
    simp only [stepShutdown] at h
    rw [if_neg (by omega)] at h
    exact Option.noConfusion h
  | recvResult =>
    refine Or.inr ⟨(by intro hh; cases hh), ?_⟩
    simp only [stepShutdown] at h
    split at h
    · cases h; exact h0
    · cases h
  | flushPartial =>
    refine Or.inr ⟨(by intro hh; cases hh), ?_⟩
    simp only [stepShutdown] at h
    split at h
    · cases h; exact h0
    · cases h
  | collectorClosed =>
    refine Or.inr ⟨(by intro hh; cases hh), ?_⟩
    simp only [stepShutdown] at h
    split at h
    · cases h; exact h0
    · cases h

/-- If a run of a prefix `p` from a state with the main goroutine at its
start contains `finalSnap`, it also contains `closeChan`. -/
lemma runShutdown_finalSnap_needs_close :
    ∀ (p : List PEv) (s : ShutdownState), s.mainPC = 0 →
      (runShutdown s p).isSome = true → PEv.finalSnap ∈ p → PEv.closeChan ∈ p := by
  intro p
  induction p with
  | nil => intro s _ _ hmem; exact absurd hmem (by simp)
  | cons e rest ih =>
    intro s hpc hrun hmem
    rcases hstep : stepShutdown s e with _ | t
    · exfalso
      simp [runShutdown, hstep] at hrun
    · rcases stepShutdown_keeps_mainPC0 s t e hpc hstep with hclose | ⟨hne, hpc2⟩
      · rw [hclose]
        exact List.mem_cons_self _ _
      · refine List.mem_cons_of_mem _ ?_
        have hmem2 : PEv.finalSnap ∈ rest := by
          rcases List.mem_cons.mp hmem with h | h
          · exact absurd h.symm hne
          · exact h
        have hrun2 : (runShutdown t rest).isSome = true := by
          simpa only [runShutdown, hstep] using hrun
        exact ih t hpc2 hrun2 hmem2

/-- Running an appended trace runs the first part first. -/
lemma runShutdown_append (p q : List PEv) :
    ∀ s, runShutdown s (p ++ q) =
      match runShutdown s p with
      | some t => runShutdown t q
      | none => none := by
  induction p with
  | nil => intro s; rfl
  | cons e rest ih =>
    intro s
    rcases hstep : stepShutdown s e with _ | t
    · simp only [List.cons_append, runShutdown, hstep]
    · simp only [List.cons_append, runShutdown, hstep]
      exact ih t

/-- Claim C7 (amended): in every complete shutdown execution, the final
snapshot does come after the workers finished and the output queue was
closed — every prefix of the trace containing `finalSnap` contains
`closeChan` — but it need not come after the collector's flush or its
closed state, which `main` never waits for. -/
theorem c7_amended (k : Nat) (evs : List PEv)
    (hv : validShutdownTrace k evs = true)
    (p q : List PEv) (hpq : evs = p ++ q) (hmem : PEv.finalSnap ∈ p) :
    PEv.closeChan ∈ p := by
  have hrun : (runShutdown (initShutdown k) evs).isSome = true := by
    unfold validShutdownTrace at hv
    rcases h : runShutdown (initShutdown k) evs with _ | s
    · rw [h] at hv; simp at hv
    · simp
  have hrp : (runShutdown (initShutdown k) p).isSome = true := by
    rw [hpq, runShutdown_append] at hrun
    rcases h : runShutdown (initShutdown k) p with _ | t
    · rw [h] at hrun; simp at hrun
    · simp
  exact runShutdown_finalSnap_needs_close p (initShutdown k) rfl hrp hmem

/-- Witness for C7 (amended), on the counterexample's trace and prefix. -/
theorem c7_amended_witness : PEv.closeChan ∈ [PEv.closeChan, PEv.finalSnap] :=
  c7_amended 0 [PEv.closeChan, PEv.finalSnap, PEv.flushPartial, PEv.collectorClosed]
    (by rfl) [PEv.closeChan, PEv.finalSnap] [PEv.flushPartial, PEv.collectorClosed]
    rfl (by decide)

/- ### Claim C9: prompt construction and run determinism
(main.go lines 135-165, 233-257) -/

/-- A single quote character, used by the prompt template. -/
def sqc : String := String.singleton (Char.ofNat 39)

/-- One few-shot demonstration exemplar (main.go lines 82-93). -/
structure DemoEx where
  activityName : String
  premise : String
  choices : List String
  question : String
  answer : String
deriving DecidableEq

/-- `demoExamples` (main.go lines 89-92). -/
def demoExamples : List DemoEx :=
  [{ activityName := "going grocery shopping", premise := "select items from the shelf",
     choices := ["pay at the counter", "leave the store without paying"],
     question := "effect", answer := "A" },
   { activityName := "baking a cake", premise := "mix the batter",
     choices := ["burn the kitchen", "pour batter into a pan"],
     question := "effect", answer := "B" },
   { activityName := "riding on a bus", premise := "board the bus",
     choices := ["buy a ticket", "fly to another city"],
     question := "cause", answer := "A" },
   { activityName := "planting a tree", premise := "dig a hole",
     choices := ["water the plant", "cut down a tree"],
     question := "effect", answer := "A" }]

/-- The constant `NShot` (main.go line 31). -/
def NShot : Nat := 4

/-- The constant `ActivityName` (main.go line 35). -/
def activityNameConst : String := "going grocery shopping"

/-- `getQuestionText` (main.go lines 125-132): the `Sprintf` template,
with Go's `choices[0]`/`choices[1]` always in range at the call sites. -/
def getQuestionText (activityName premise : String) (choices : List String)
    (causalQuestion : String) : String :=
  "The following are multiple choice questions about " ++ sqc ++ activityName ++ sqc ++
  ". You should directly answer the question by choosing the correct option.\n" ++
  "Which of the following events (given as options A or B) is a plausible " ++
  causalQuestion ++ " of the event " ++ sqc ++ premise ++ sqc ++ "?\n" ++
  "A. " ++ choices.getD 0 "" ++ "\nB. " ++ choices.getD 1 "" ++ "\nAnswer:"

/-- `createDemoText` (main.go lines 135-157), with the per-invocation
`rand.Shuffle` result passed in as `order` (a rearrangement of
`demoExamples`): format the first `nShot` exemplars of the shuffled slice. -/
def createDemoText (nShot : Nat) (order : List DemoEx) : String :=
  String.join ((order.take nShot).map (fun ex =>
    getQuestionText ex.activityName ex.premise ex.choices ex.question ++
    " " ++ ex.answer ++ "\n\n"))

/-- `buildPrompt` (main.go lines 160-165): demo text plus the target
question. -/
def buildPrompt (sample : Sample) (nShot : Nat) (order : List DemoEx) : String :=
  createDemoText nShot order ++
  getQuestionText activityNameConst sample.premise [sample.choice1, sample.choice2]
    sample.question

/-- One full run of the worker pipeline over the samples with a deterministic
collaborator `g` (a pure function of the request prompt) and the stream
`orders` of per-invocation shuffle results (`orders i` is the shuffled
exemplar slice of the `i`-th invocation). -/
def runResponses (g : String → Except Unit String) (orders : Nat → List DemoEx) :
    List Sample → Nat → List Response
  | [], _ => []
  | s :: rest, i =>
    processSample s (g (buildPrompt s NShot (orders i))) 0 ::
      runResponses g orders rest (i + 1)

/-- The opening of a prompt: its first 60 characters, which cover the
activity name of the first shuffled exemplar. -/
def promptKey (p : String) : List Char := p.toList.take 60

/-- A deterministic collaborator that reads the prompt text: it answers
`"A"` when the prompt opens like the one built with the unshuffled exemplar
order and `"B"` otherwise. -/
def gPromptSensitive : String → Except Unit String :=
  fun p => if promptKey p = promptKey (buildPrompt sampleW NShot demoExamples)
           then Except.ok "A" else Except.ok "B"

/-- Counterexample to C9: with this deterministic collaborator, two runs over
the same one-sample dataset that differ only in the per-invocation exemplar
shuffle produce different correct counts (1 versus 0): the shuffle reaches
scoring through the prompt-dependent reply. -/
theorem c9_counterexample :
    correctCount (runResponses gPromptSensitive (fun _ => demoExamples) [sampleW] 0) = 1 ∧
    correctCount (runResponses gPromptSensitive (fun _ => demoExamples.reverse) [sampleW] 0) = 0 ∧
    totalCount (runResponses gPromptSensitive (fun _ => demoExamples) [sampleW] 0) =
      totalCount (runResponses gPromptSensitive (fun _ => demoExamples.reverse) [sampleW] 0) := by
  refine ⟨?_, ?_, rfl⟩ <;> decide

/-- Claim C9 (amended): the exemplar shuffle reaches a result only through
the prompt text handed to the collaborator; whenever the collaborator's
reply is insensitive to the shuffle — it factors through the sample — two
runs over the same dataset with different shuffle streams produce the same
scored results, hence identical total, correct and invalid counts. -/
theorem c9_amended (g : String → Except Unit String) (h : Sample → Except Unit String)
    (hg : ∀ (s : Sample) (order : List DemoEx), g (buildPrompt s NShot order) = h s)
    (samples : List Sample) (orders1 orders2 : Nat → List DemoEx) (i j : Nat) :
    totalCount (runResponses g orders1 samples i) =
      totalCount (runResponses g orders2 samples j) ∧
    correctCount (runResponses g orders1 samples i) =
      correctCount (runResponses g orders2 samples j) ∧
    invalidCount (runResponses g orders1 samples i) =
      invalidCount (runResponses g orders2 samples j) := by
  have hruns : ∀ (samples : List Sample) (i j : Nat),
      runResponses g orders1 samples i = runResponses g orders2 samples j := by
    intro samples
    induction samples with
    | nil => intro i j; rfl
    | cons s rest ih =>
      intro i j
      unfold runResponses
      rw [hg s (orders1 i), hg s (orders2 j), ih (i + 1) (j + 1)]
  rw [hruns samples i j]
  exact ⟨rfl, rfl, rfl⟩

/-- Witness for C9 (amended): a prompt-insensitive collaborator yields equal
counts across the two shuffle streams of the counterexample. -/
theorem c9_amended_witness :
    totalCount (runResponses (fun _ => Except.ok "A") (fun _ => demoExamples) [sampleW] 0) =
      totalCount (runResponses (fun _ => Except.ok "A") (fun _ => demoExamples.reverse) [sampleW] 0) ∧
    correctCount (runResponses (fun _ => Except.ok "A") (fun _ => demoExamples) [sampleW] 0) =
      correctCount (runResponses (fun _ => Except.ok "A") (fun _ => demoExamples.reverse) [sampleW] 0) ∧
    invalidCount (runResponses (fun _ => Except.ok "A") (fun _ => demoExamples) [sampleW] 0) =
      invalidCount (runResponses (fun _ => Except.ok "A") (fun _ => demoExamples.reverse) [sampleW] 0) :=
  c9_amended (fun _ => Except.ok "A") (fun _ => Except.ok "A") (fun _ _ => rfl)
    [sampleW] (fun _ => demoExamples) (fun _ => demoExamples.reverse) 0 0
